import Mathlib

/-!
Verification of the translator bot in src/app.py.

The program listens to inbound chat messages, buffers them per chat,
coalesces bursts inside a merge window, rate-limits outbound actions,
and submits merged text to a translation backend.  Python strings are
modelled as lists of Unicode scalar values; wall-clock timestamps as
rationals; the translation backend as an oracle returning an Except
value.  The repository contains a second (edit-mode) program variant
that is not included under src/; the few definitions written from the
specification text instead of the source carry a doc comment starting
with the words Modelled from the spec.
-/

namespace TgJa

/-- Python str, modelled as the list of its Unicode scalar values. -/
abbrev Text := List Char

/-- The kana character class of the regex assigned to the name prefixed
kana-re in src/app.py line 49: code points U+3040 through U+30FF. -/
def isKana (c : Char) : Bool :=
  decide (0x3040 ≤ c.toNat) && decide (c.toNat ≤ 0x30ff)

/-- The kanji (CJK ideograph) ranges of the broader regex on line 48 of
src/app.py, U+3400 through U+4DBF and U+4E00 through U+9FFF; these ranges
are disjoint from the kana class used by the heuristic. -/
def isCJKIdeograph (c : Char) : Bool :=
  (decide (0x3400 ≤ c.toNat) && decide (c.toNat ≤ 0x4dbf)) ||
  (decide (0x4e00 ≤ c.toNat) && decide (c.toNat ≤ 0x9fff))

/-- looks_like_japanese from src/app.py lines 51 through 56: empty text is
not Japanese; otherwise the text is treated as already Japanese exactly
when it holds at least three kana code points. -/
def looks_like_japanese (text : Text) : Bool :=
  if text.isEmpty then false else decide (3 ≤ text.countP isKana)

/-- The Unicode whitespace class used both by the backslash-s regex class
and by str.strip in Python 3 (the two agree: both are the set of code
points whose Unicode whitespace flag is set, plus the ASCII separators). -/
def pyIsWs (c : Char) : Bool :=
  let n := c.toNat
  (decide (9 ≤ n) && decide (n ≤ 13)) ||
  (decide (28 ≤ n) && decide (n ≤ 31)) ||
  decide (n = 32) || decide (n = 0x85) || decide (n = 0xa0) ||
  decide (n = 0x1680) ||
  (decide (0x2000 ≤ n) && decide (n ≤ 0x200a)) ||
  decide (n = 0x2028) || decide (n = 0x2029) ||
  decide (n = 0x202f) || decide (n = 0x205f) || decide (n = 0x3000)

/-- One left-to-right pass replacing every maximal run of whitespace by a
single space: the effect of re.sub of one-or-more-whitespace with a single
space on line 59 of src/app.py.  The flag records whether the previous
character belonged to a whitespace run. -/
def collapseWsAux (ws : Char → Bool) : Bool → Text → Text
  | _, [] => []
  | prevWs, c :: rest =>
    if ws c then
      if prevWs then collapseWsAux ws true rest
      else ' ' :: collapseWsAux ws true rest
    else c :: collapseWsAux ws false rest

/-- str.strip with no argument: drop whitespace from both ends. -/
def stripWs (ws : Char → Bool) (l : Text) : Text :=
  ((l.dropWhile ws).reverse.dropWhile ws).reverse

/-- Whitespace collapsing followed by stripping, parametrised by the
whitespace class. -/
def normalizeWith (ws : Char → Bool) (l : Text) : Text :=
  stripWs ws (collapseWsAux ws false l)

/-- normalize_text from src/app.py lines 58 and 59. -/
def normalize_text (l : Text) : Text := normalizeWith pyIsWs l

/-- The length cap of src/app.py lines 113 through 115: text longer than
the budget is cut to the budget and a horizontal-ellipsis marker is
appended. -/
def capText (maxChars : ℕ) (t : Text) : Text :=
  if maxChars < t.length then t.take maxChars ++ ['…'] else t

/-- The newline join of src/app.py line 108. -/
def joinNl (ts : List Text) : Text := List.intercalate ['\n'] ts

/-- format_blockquote from src/app.py lines 78 through 81. -/
def format_blockquote (src ja : Text) : Text :=
  src ++ '\n' :: "<blockquote>".toList ++ ja ++ "</blockquote>".toList

/-- The error raised by the translation backend, its payload irrelevant
to the control flow (src/app.py catches every exception on line 126). -/
abbrev TranslationError := String

/-- A trivially succeeding translation oracle, used by concrete
witnesses. -/
def okTr : Text → Except TranslationError Text := Except.ok

/-- One entry of a per-chat buffer deque, src/app.py line 87: arrival
timestamp, normalized text and the source message identifier. -/
structure BufferedItem where
  ts : ℚ
  text : Text
  msgId : ℕ
deriving DecidableEq, Repr

/-- The mutable per-chat state of src/app.py: last_sent_at (line 86), the
buffer deque (line 87), and the wake deadlines of the flush tasks spawned
on line 152 whose sleep has not yet elapsed. -/
structure ChatSt where
  lastSentAt : ℚ
  buffer : List BufferedItem
  pendingWakes : List ℚ
deriving DecidableEq, Repr

/-- An inbound NewMessage event, src/app.py line 131. -/
structure Event where
  chat_id : ℤ
  sender_id : ℤ
  raw_text : Text
  msgId : ℕ
deriving DecidableEq, Repr

/-- The observable outcome of one run of the flush_chat body, src/app.py
lines 93 through 128.  fired is the snapshot taken on lines 98 and 99
(none when the buffer was empty); submitted is the argument passed to
translate_to_ja on line 122 when that call is reached; sent is the
payload and reply target of the send_message call on line 124 when it is
reached. -/
structure FlushResult where
  st : ChatSt
  fired : Option (List BufferedItem)
  submitted : Option Text
  sent : Option (Text × ℕ)
deriving DecidableEq, Repr

/-- The body of flush_chat (src/app.py lines 89 through 128) run at wake
time now, with the successful send recorded at time sendAt (line 125) and
the backend modelled by the oracle tr.  The task whose sleep elapsed is
removed from the pending wakes; an empty buffer is a no-op; otherwise the
buffer is snapshotted and cleared, the throttle is checked, the texts are
joined, normalized, capped and gated by the language heuristic, and the
translation plus send either succeed (updating last_sent_at) or fail with
a caught exception (state unchanged apart from the consumed buffer). -/
def flushBody (minInterval : ℚ) (maxChars : ℕ)
    (tr : Text → Except TranslationError Text)
    (now sendAt : ℚ) (st : ChatSt) : FlushResult :=
  let st0 : ChatSt := { st with pendingWakes := st.pendingWakes.tail }
  if st0.buffer.isEmpty then ⟨st0, none, none, none⟩
  else
    let items := st0.buffer
    let st1 : ChatSt := { st0 with buffer := [] }
    if now - st1.lastSentAt < minInterval then ⟨st1, some items, none, none⟩
    else
      let texts := items.map (·.text)
      let reply_to := (items.getLastD ⟨0, [], 0⟩).msgId
      let merged := normalize_text (joinNl texts)
      if merged.isEmpty then ⟨st1, some items, none, none⟩
      else
        let capped := capText maxChars merged
        if looks_like_japanese capped then ⟨st1, some items, none, none⟩
        else
          match tr capped with
          | .error _ => ⟨st1, some items, some capped, none⟩
          | .ok ja =>
            ⟨{ st1 with lastSentAt := sendAt }, some items, some capped,
              some (format_blockquote capped ja, reply_to)⟩

/-- The classification performed inline by handler, src/app.py lines 132
through 146: allow-list filter, optional self filter, then normalization
and the emptiness test.  Returns the normalized text when the event is
admitted to the buffer, none when it is dropped. -/
def handlerClassify (allow : Option (List ℤ)) (ignoreSelf : Bool) (meId : ℤ)
    (ev : Event) : Option Text :=
  if (match allow with
      | some al => !al.contains ev.chat_id
      | none => false) then none
  else if ignoreSelf && ev.sender_id == meId then none
  else
    let text := normalize_text ev.raw_text
    if text.isEmpty then none else some text

/-- handler, src/app.py lines 130 through 152, acting on the state of the
chat of the event at time now: a dropped event leaves the state alone; an
admitted event is appended to the buffer (line 149) and a flush task is
spawned unconditionally (line 152), due to wake at now plus the merge
window. -/
def handlerStep (mergeWindow : ℚ) (allow : Option (List ℤ))
    (ignoreSelf : Bool) (meId : ℤ) (now : ℚ) (ev : Event)
    (st : ChatSt) : ChatSt :=
  match handlerClassify allow ignoreSelf meId ev with
  | none => st
  | some text =>
    { st with
      buffer := st.buffer ++ [⟨now, text, ev.msgId⟩],
      pendingWakes := st.pendingWakes ++ [now + mergeWindow] }

/-- An instant of the per-chat timeline: either an inbound message event
reaching handler, or the sleep of one spawned flush task elapsing. -/
inductive ChatOp where
  | msg (ev : Event)
  | wake
deriving DecidableEq, Repr

/-- One timeline step at time t. -/
def stepOp (mergeWindow minInterval : ℚ) (maxChars : ℕ)
    (tr : Text → Except TranslationError Text)
    (allow : Option (List ℤ)) (ignoreSelf : Bool) (meId : ℤ)
    (t : ℚ) (op : ChatOp) (st : ChatSt) :
    ChatSt × Option (List BufferedItem) :=
  match op with
  | .msg ev => (handlerStep mergeWindow allow ignoreSelf meId t ev st, none)
  | .wake =>
    let r := flushBody minInterval maxChars tr t t st
    (r.st, r.fired)

/-- Run a timeline of timestamped operations, collecting every nonempty
batch snatched by a flush. -/
def execTrace (mergeWindow minInterval : ℚ) (maxChars : ℕ)
    (tr : Text → Except TranslationError Text)
    (allow : Option (List ℤ)) (ignoreSelf : Bool) (meId : ℤ) :
    List (ℚ × ChatOp) → ChatSt → ChatSt × List (List BufferedItem)
  | [], st => (st, [])
  | (t, op) :: rest, st =>
    let p := stepOp mergeWindow minInterval maxChars tr allow ignoreSelf meId
      t op st
    let q := execTrace mergeWindow minInterval maxChars tr allow ignoreSelf
      meId rest p.1
    (q.1, p.2.toList ++ q.2)

/-- Substring test: does tag occur contiguously inside t. -/
def hasSub (tag : Text) : Text → Bool
  | [] => tag.isEmpty
  | c :: rest => tag.isPrefixOf (c :: rest) || hasSub tag rest

/-- Modelled from the spec: the ProcessedIdSet admission check of the
Event Classifier, drop reason (c) of section 4.1 together with its
side effect — the repository's second (edit-mode) program variant keeps a
set of message identifiers already handled, drops an event whose
identifier is already present, and inserts the identifier immediately on
admit; that variant is not included under src/.  Returns the admit
decision and the updated set. -/
def classifyDedup (processed : List ℕ) (m : ℕ) : Bool × List ℕ :=
  if m ∈ processed then (false, processed)
  else (true, processed ++ [m])

/-- The subsequence of a delivery stream that the ProcessedIdSet check
admits, threading the set through the stream. -/
def dedupAdmits (processed : List ℕ) : List ℕ → List ℕ
  | [] => []
  | d :: ds =>
    let p := classifyDedup processed d
    if p.1 then d :: dedupAdmits p.2 ds else dedupAdmits p.2 ds

/-- Modelled from the spec: the unified Event Classifier of section 4.1
with its drop reasons checked in order — (a) chat not in the allow set,
(b) authored by the system itself, (c) message identifier already
processed, (d) normalized text empty or below the minimum length,
(e) normalized text contains the Translation Tag sentinel, (f) the
kana heuristic meets its threshold.  Reasons (c), (d) with a minimum
length of two, and (e) are implemented by the repository's second
(edit-mode) variant, which is not included under src/; their behaviour
here follows the words of the spec.  Returns the normalized text on
admit, none on drop. -/
def classify (allow : Option (List ℤ)) (selfFilter : Bool) (meId : ℤ)
    (processed : List ℕ) (tag : Text) (minLen threshold : ℕ)
    (ev : Event) : Option Text :=
  if (match allow with
      | some al => !al.contains ev.chat_id
      | none => false) then none
  else if selfFilter && ev.sender_id == meId then none
  else if processed.contains ev.msgId then none
  else
    let t := normalize_text ev.raw_text
    if t.isEmpty || t.length < minLen then none
    else if hasSub tag t then none
    else if decide (threshold ≤ t.countP isKana) then none
    else some t

/-- Modelled from the spec: the control flow of section 2 — an event the
unified classifier drops causes no state change at all (nothing is
buffered, no flush is scheduled), so no translation call and no outbound
message can ever arise from it. -/
def handlerUnified (allow : Option (List ℤ)) (selfFilter : Bool)
    (meId : ℤ) (processed : List ℕ) (tag : Text) (minLen threshold : ℕ)
    (mergeWindow now : ℚ) (ev : Event) (st : ChatSt) : ChatSt :=
  match classify allow selfFilter meId processed tag minLen threshold ev with
  | none => st
  | some text =>
    { st with
      buffer := st.buffer ++ [⟨now, text, ev.msgId⟩],
      pendingWakes := st.pendingWakes ++ [now + mergeWindow] }

/-- Default of MIN_INTERVAL_PER_CHAT, src/app.py line 28: 2.5 seconds. -/
def MIN_INTERVAL_PER_CHAT : ℚ := 5 / 2

/-- Default of MERGE_WINDOW, src/app.py line 31: 1.2 seconds. -/
def MERGE_WINDOW : ℚ := 6 / 5

/-- Default of MAX_CHARS, src/app.py line 34. -/
def MAX_CHARS : ℕ := 1500

/-! ### Helper lemmas on whitespace normalization -/

/-- No character of a list is followed by another whitespace character
when the first is whitespace. -/
def NoAdjWs (ws : Char → Bool) (l : Text) : Prop :=
  List.Chain' (fun a b => ws a = true → ws b = false) l

/-- The head, when present, is not whitespace. -/
def HeadOk (ws : Char → Bool) (l : Text) : Prop :=
  ∀ c, l.head? = some c → ws c = false

/-- The last element, when present, is not whitespace. -/
def LastOk (ws : Char → Bool) (l : Text) : Prop :=
  ∀ c, l.getLast? = some c → ws c = false

theorem collapse_mem_sp (ws : Char → Bool) (p : Bool) (l : Text) :
    ∀ c ∈ collapseWsAux ws p l, ws c = true → c = ' ' := by
  induction l generalizing p with
  | nil => simp [collapseWsAux]
  | cons c rest ih =>
    by_cases hc : ws c = true
    · cases p with
      | true => simpa [collapseWsAux, hc] using ih true
      | false =>
        simp only [collapseWsAux, hc, if_true, Bool.false_eq_true, if_false]
        intro d hd hw
        rcases List.mem_cons.mp hd with h | h
        · exact h
        · exact ih true d h hw
    · simp only [Bool.not_eq_true] at hc
      simp only [collapseWsAux, hc, Bool.false_eq_true, if_false]
      intro d hd hw
      rcases List.mem_cons.mp hd with h | h
      · rw [h] at hw; exact absurd hw (by simp [hc])
      · exact ih false d h hw

theorem collapse_head_true (ws : Char → Bool) (l : Text) :
    HeadOk ws (collapseWsAux ws true l) := by
  induction l with
  | nil => intro c h; simp [collapseWsAux] at h
  | cons c rest ih =>
    by_cases hc : ws c = true
    · simpa [collapseWsAux, hc] using ih
    · simp only [Bool.not_eq_true] at hc
      intro d hd
      simp only [collapseWsAux, hc, Bool.false_eq_true, if_false,
        List.head?_cons, Option.some.injEq] at hd
      rw [← hd]; exact hc

theorem collapse_chain (ws : Char → Bool) (p : Bool) (l : Text) :
    NoAdjWs ws (collapseWsAux ws p l) := by
  induction l generalizing p with
  | nil => simp [collapseWsAux, NoAdjWs]
  | cons c rest ih =>
    by_cases hc : ws c = true
    · cases p with
      | true => simpa [collapseWsAux, hc] using ih true
      | false =>
        simp only [collapseWsAux, hc, if_true]
        refine List.chain'_cons'.mpr ⟨?_, ih true⟩
        intro y hy _
        exact collapse_head_true ws rest y hy
    · simp only [Bool.not_eq_true] at hc
      simp only [collapseWsAux, hc, Bool.false_eq_true, if_false]
      refine List.chain'_cons'.mpr ⟨?_, ih false⟩
      intro y _ h
      simp [hc] at h

theorem collapse_true_of_headOk (ws : Char → Bool) (l : Text)
    (h : HeadOk ws l) : collapseWsAux ws true l = collapseWsAux ws false l := by
  cases l with
  | nil => rfl
  | cons c rest =>
    have hc : ws c = false := h c rfl
    simp [collapseWsAux, hc]

theorem collapse_eq_self (ws : Char → Bool) (l : Text)
    (hsp : ∀ c ∈ l, ws c = true → c = ' ') (hch : NoAdjWs ws l) :
    collapseWsAux ws false l = l := by
  induction l with
  | nil => rfl
  | cons c rest ih =>
    have hpair := List.chain'_cons'.mp hch
    by_cases hc : ws c = true
    · have hcsp : c = ' ' := hsp c (List.mem_cons_self c rest) hc
      have hhead : HeadOk ws rest := by
        intro y hy
        exact hpair.1 y hy hc
      simp only [collapseWsAux, hc, if_true, Bool.false_eq_true, if_false]
      rw [collapse_true_of_headOk ws rest hhead,
        ih (fun d hd => hsp d (List.mem_cons_of_mem c hd)) hpair.2, hcsp]
    · simp only [Bool.not_eq_true] at hc
      simp only [collapseWsAux, hc, Bool.false_eq_true, if_false]
      rw [ih (fun d hd => hsp d (List.mem_cons_of_mem c hd)) hpair.2]

theorem dropWhile_headOk (ws : Char → Bool) (l : Text) :
    HeadOk ws (l.dropWhile ws) := by
  induction l with
  | nil => intro c h; simp at h
  | cons c rest ih =>
    by_cases hc : ws c = true
    · simpa [List.dropWhile, hc] using ih
    · simp only [Bool.not_eq_true] at hc
      intro d hd
      simp only [List.dropWhile, hc, Bool.false_eq_true, if_false,
        List.head?_cons, Option.some.injEq] at hd
      rw [← hd]; exact hc

theorem chain_dropWhile (ws : Char → Bool) (l : Text)
    (h : NoAdjWs ws l) : NoAdjWs ws (l.dropWhile ws) := by
  induction l with
  | nil => simpa using h
  | cons c rest ih =>
    by_cases hc : ws c = true
    · simpa [List.dropWhile, hc] using ih h.tail
    · simp only [Bool.not_eq_true] at hc
      simpa [List.dropWhile, hc] using h

theorem chain_reverse (ws : Char → Bool) (l : Text)
    (h : NoAdjWs ws l) : NoAdjWs ws l.reverse := by
  unfold NoAdjWs at h ⊢
  rw [List.chain'_reverse]
  refine h.imp ?_
  intro a b hab hb
  by_cases ha : ws a = true
  · exact absurd hb (by simp [hab ha])
  · simpa using ha

theorem dropWhile_eq_self_of_headOk (ws : Char → Bool) (l : Text)
    (h : HeadOk ws l) : l.dropWhile ws = l := by
  cases l with
  | nil => rfl
  | cons c rest => simp [List.dropWhile, h c rfl]

theorem getLast?_dropWhile (ws : Char → Bool) (l : Text)
    (h : l.dropWhile ws ≠ []) :
    (l.dropWhile ws).getLast? = l.getLast? := by
  induction l with
  | nil => simp at h
  | cons c rest ih =>
    by_cases hc : ws c = true
    · have hd : List.dropWhile ws (c :: rest) = List.dropWhile ws rest := by
        simp [List.dropWhile, hc]
      rw [hd] at h ⊢
      have hrest : rest ≠ [] := by
        intro he; rw [he] at h; simp at h
      rw [ih h]
      cases rest with
      | nil => exact absurd rfl hrest
      | cons b r => simp
    · simp only [Bool.not_eq_true] at hc
      simp [List.dropWhile, hc]

theorem strip_eq_self (ws : Char → Bool) (l : Text)
    (h1 : HeadOk ws l) (h2 : LastOk ws l) : stripWs ws l = l := by
  unfold stripWs
  rw [dropWhile_eq_self_of_headOk ws l h1]
  have hrev : HeadOk ws l.reverse := by
    intro c hc
    rw [List.head?_reverse] at hc
    exact h2 c hc
  rw [dropWhile_eq_self_of_headOk ws l.reverse hrev, List.reverse_reverse]

theorem normalizeWith_canon (ws : Char → Bool) (l : Text) :
    (∀ c ∈ normalizeWith ws l, ws c = true → c = ' ') ∧
    NoAdjWs ws (normalizeWith ws l) ∧
    HeadOk ws (normalizeWith ws l) ∧ LastOk ws (normalizeWith ws l) := by
  unfold normalizeWith stripWs
  set X := collapseWsAux ws false l with hX
  set D1 := X.dropWhile ws with hD1
  set D2 := D1.reverse.dropWhile ws with hD2
  have hspX : ∀ c ∈ X, ws c = true → c = ' ' := collapse_mem_sp ws false l
  have hchX : NoAdjWs ws X := collapse_chain ws false l
  have hmem : ∀ c ∈ D2.reverse, c ∈ X := by
    intro c hc
    rw [List.mem_reverse] at hc
    have h1 := (List.dropWhile_sublist ws (l := D1.reverse)).subset hc
    rw [List.mem_reverse] at h1
    exact (List.dropWhile_sublist ws (l := X)).subset h1
  refine ⟨fun c hc => hspX c (hmem c hc), ?_, ?_, ?_⟩
  · exact chain_reverse ws D2
      (chain_dropWhile ws D1.reverse
        (chain_reverse ws D1 (chain_dropWhile ws X hchX)))
  · intro c hc
    rw [List.head?_reverse] at hc
    have hne : D2 ≠ [] := by
      intro he; rw [he] at hc; simp at hc
    rw [hD2, getLast?_dropWhile ws D1.reverse (hD2 ▸ hne),
      List.getLast?_reverse] at hc
    exact dropWhile_headOk ws X c hc
  · intro c hc
    rw [List.getLast?_reverse] at hc
    exact dropWhile_headOk ws D1.reverse c hc

theorem noAdjWs_of_noWs (ws : Char → Bool) (l : Text)
    (h : ∀ c ∈ l, ws c = false) : NoAdjWs ws l := by
  induction l with
  | nil => simp [NoAdjWs]
  | cons c rest ih =>
    refine List.chain'_cons'.mpr
      ⟨?_, ih fun d hd => h d (List.mem_cons_of_mem c hd)⟩
    intro y _ hcw
    exact absurd hcw (by simp [h c (List.mem_cons_self c rest)])

theorem normalizeWith_eq_self (ws : Char → Bool) (l : Text)
    (h : ∀ c ∈ l, ws c = false) : normalizeWith ws l = l := by
  unfold normalizeWith
  rw [collapse_eq_self ws l
    (fun c hc hw => absurd hw (by simp [h c hc]))
    (noAdjWs_of_noWs ws l h)]
  exact strip_eq_self ws l
    (fun c hc => h c (List.mem_of_mem_head? hc))
    (fun c hc => h c (List.mem_of_getLast?_eq_some hc))

theorem normalizeWith_idem (ws : Char → Bool) (l : Text) :
    normalizeWith ws (normalizeWith ws l) = normalizeWith ws l := by
  obtain ⟨hsp, hch, hhead, hlast⟩ := normalizeWith_canon ws l
  show stripWs ws (collapseWsAux ws false (normalizeWith ws l)) =
    normalizeWith ws l
  rw [collapse_eq_self ws (normalizeWith ws l) hsp hch,
    strip_eq_self ws (normalizeWith ws l) hhead hlast]

/-- Characters in the kanji ranges are outside the kana class. -/
theorem isCJK_not_kana (c : Char) (h : isCJKIdeograph c = true) :
    isKana c = false := by
  simp only [isCJKIdeograph, Bool.or_eq_true, Bool.and_eq_true,
    decide_eq_true_eq] at h
  simp only [isKana, Bool.and_eq_true, decide_eq_true_eq,
    Bool.and_eq_false_iff, decide_eq_false_iff_not]
  omega

/-- Characters in the kanji ranges are not whitespace. -/
theorem isCJK_not_ws (c : Char) (h : isCJKIdeograph c = true) :
    pyIsWs c = false := by
  simp only [isCJKIdeograph, Bool.or_eq_true, Bool.and_eq_true,
    decide_eq_true_eq] at h
  simp only [pyIsWs, Bool.or_eq_false_iff, Bool.and_eq_false_iff,
    decide_eq_false_iff_not]
  omega

theorem isEmpty_false_of_ne (l : List α) (h : l ≠ []) :
    l.isEmpty = false := by
  cases l with
  | nil => exact absurd rfl h
  | cons a r => rfl

/-! ### Claim theorems -/

/-- C9: text normalization is idempotent — applying normalize_text twice
equals applying it once, for every string. -/
theorem normalize_text_idempotent (s : Text) :
    normalize_text (normalize_text s) = normalize_text s :=
  normalizeWith_idem pyIsWs s

/-- C7: the language heuristic classifies a string as already Japanese
exactly when its kana count reaches the fixed threshold of three — a
count of two is not classified already-translated, a count of three
is. -/
theorem kana_threshold_boundary (s : Text) :
    (s.countP isKana = 2 → looks_like_japanese s = false) ∧
    (s.countP isKana = 3 → looks_like_japanese s = true) ∧
    (looks_like_japanese s = true ↔ 3 ≤ s.countP isKana) := by
  have hiff : looks_like_japanese s = true ↔ 3 ≤ s.countP isKana := by
    cases s with
    | nil => simp [looks_like_japanese]
    | cons c r => simp [looks_like_japanese]
  refine ⟨?_, ?_, hiff⟩
  · intro h2
    cases hbool : looks_like_japanese s
    · rfl
    · have := hiff.mp hbool
      omega
  · intro h3
    exact hiff.mpr (by omega)

/-- Witness for C7: a string with two kana characters is not classified
already-Japanese, one with three kana characters is. -/
theorem kana_threshold_boundary_witness :
    looks_like_japanese ['あ', 'ア', 'x'] = false ∧
    looks_like_japanese ['あ', 'ア', 'ば'] = true :=
  ⟨(kana_threshold_boundary ['あ', 'ア', 'x']).1 (by decide),
   (kana_threshold_boundary ['あ', 'ア', 'ば']).2.1 (by decide)⟩

/-- C10: the heuristic counts only kana code points — fewer than three
kana means not already-Japanese however many CJK ideographs appear, so a
text made entirely of kanji is not classified already-Japanese, survives
normalization unchanged, and a flush over such a single-item batch does
submit it to the translation backend. -/
theorem heuristic_counts_only_kana (s : Text) :
    (s.countP isKana < 3 → looks_like_japanese s = false) ∧
    ((∀ c ∈ s, isCJKIdeograph c = true) → looks_like_japanese s = false) ∧
    ((∀ c ∈ s, isCJKIdeograph c = true) → normalize_text s = s) ∧
    (∀ (tr : Text → Except TranslationError Text)
      (now sendAt last t0 : ℚ) (mid : ℕ) (wk : List ℚ),
      s ≠ [] → (∀ c ∈ s, isCJKIdeograph c = true) → s.length ≤ MAX_CHARS →
      ¬(now - last < MIN_INTERVAL_PER_CHAT) →
      (flushBody MIN_INTERVAL_PER_CHAT MAX_CHARS tr now sendAt
        ⟨last, [⟨t0, s, mid⟩], wk⟩).submitted = some s) := by
  have hlt : s.countP isKana < 3 → looks_like_japanese s = false := by
    intro hcount
    cases s with
    | nil => rfl
    | cons c r =>
      simp only [looks_like_japanese, List.isEmpty_cons, Bool.false_eq_true,
        if_false, decide_eq_false_iff_not]
      omega
  have hzero : (∀ c ∈ s, isCJKIdeograph c = true) → s.countP isKana = 0 := by
    intro hall
    exact List.countP_eq_zero.mpr fun c hc => by
      simp [isCJK_not_kana c (hall c hc)]
  have hnorm : (∀ c ∈ s, isCJKIdeograph c = true) → normalize_text s = s :=
    fun hall => normalizeWith_eq_self pyIsWs s
      fun c hc => isCJK_not_ws c (hall c hc)
  refine ⟨hlt, fun hall => hlt (by rw [hzero hall]; omega), hnorm, ?_⟩
  intro tr now sendAt last t0 mid wk hne hall hlen hr
  have hemp : s.isEmpty = false := by
    cases s with
    | nil => exact absurd rfl hne
    | cons c r => rfl
  have hm : normalize_text (joinNl [s]) = s := by
    have hj : joinNl [s] = s := by simp [joinNl, List.intercalate]
    rw [hj, hnorm hall]
  have hcap : capText MAX_CHARS s = s := by
    simp only [capText, if_neg (by omega : ¬MAX_CHARS < s.length)]
  have hja : looks_like_japanese s = false := hlt (by rw [hzero hall]; omega)
  simp only [flushBody, List.isEmpty_cons, Bool.false_eq_true, if_false,
    if_neg hr, List.map_cons, List.map_nil, hm, hemp, hcap, hja]
  cases htr : tr s <;> simp [htr]

/-- Witness for C10: a two-kanji (Chinese) text is not classified
already-Japanese and is submitted to the translation backend by a
flush. -/
theorem heuristic_counts_only_kana_witness :
    looks_like_japanese ['中', '文'] = false ∧
    (flushBody MIN_INTERVAL_PER_CHAT MAX_CHARS (fun t => Except.ok t) 10 10
      ⟨0, [⟨0, ['中', '文'], 3⟩], []⟩).submitted = some ['中', '文'] :=
  ⟨(heuristic_counts_only_kana ['中', '文']).1 (by decide),
   (heuristic_counts_only_kana ['中', '文']).2.2.2
     (fun t => Except.ok t) 10 10 0 0 3 [] (by decide) (by decide)
     (by decide) (by norm_num [MIN_INTERVAL_PER_CHAT])⟩

/-- C8 counterexample: src/app.py enforces no two-character minimum — a
one-character message passes the classification in handler, is buffered,
and a later flush translates and sends it. -/
theorem one_char_message_processed :
    handlerClassify none false 0 ⟨5, 1, ['a'], 7⟩ = some ['a'] ∧
    (handlerStep MERGE_WINDOW none false 0 0 ⟨5, 1, ['a'], 7⟩
      ⟨0, [], []⟩).buffer = [⟨0, ['a'], 7⟩] ∧
    (flushBody MIN_INTERVAL_PER_CHAT MAX_CHARS (fun t => Except.ok t) 10 10
      ⟨0, [⟨0, ['a'], 7⟩], [MERGE_WINDOW]⟩).sent =
      some (format_blockquote ['a'] ['a'], 7) := by
  refine ⟨by decide, ?_, ?_⟩
  · simp +decide [handlerStep, handlerClassify]
  · have hthr : ¬((10 : ℚ) - 0 < MIN_INTERVAL_PER_CHAT) := by
      norm_num [MIN_INTERVAL_PER_CHAT]
    simp only [flushBody, List.isEmpty_cons, Bool.false_eq_true, if_false,
      if_neg hthr]
    norm_num
    decide

/-- C8 amended: for an event that passes the allow-list and self filters,
the classification of src/app.py drops it exactly when its normalized
text is empty — any nonempty normalized text, a single character
included, is admitted, and what is admitted is the normalized text. -/
theorem admit_iff_normalized_nonempty (allow : Option (List ℤ))
    (ignoreSelf : Bool) (meId : ℤ) (ev : Event)
    (hallow : (match allow with
      | some al => !al.contains ev.chat_id
      | none => false) = false)
    (hself : (ignoreSelf && ev.sender_id == meId) = false) :
    (handlerClassify allow ignoreSelf meId ev = none ↔
      normalize_text ev.raw_text = []) ∧
    (∀ t, handlerClassify allow ignoreSelf meId ev = some t →
      t = normalize_text ev.raw_text) := by
  unfold handlerClassify
  simp only [hallow, hself, Bool.false_eq_true, if_false]
  by_cases he : normalize_text ev.raw_text = []
  · simp [he]
  · have hemp : (normalize_text ev.raw_text).isEmpty = false := by
      rcases hcase : normalize_text ev.raw_text with _ | ⟨a, l⟩
      · exact absurd hcase he
      · simp
    simp only [hemp, Bool.false_eq_true, if_false]
    refine ⟨by simp [he], ?_⟩
    intro t ht
    exact (Option.some.injEq _ _ ▸ ht).symm

/-- C5: when the translation call raises an error during a flush, no
platform send occurs for the batch, last_sent_at is unchanged, the batch
is dropped (buffer left empty) with no retry scheduled (no new wake is
added), and a subsequently admitted inbound event is buffered as usual —
the error never escapes the flush. -/
theorem translation_error_contained (minInterval : ℚ) (maxChars : ℕ)
    (tr : Text → Except TranslationError Text) (e : TranslationError)
    (now sendAt : ℚ) (st : ChatSt)
    (hb : st.buffer ≠ [])
    (hr : ¬(now - st.lastSentAt < minInterval))
    (hm : normalize_text (joinNl (st.buffer.map (·.text))) ≠ [])
    (hja : looks_like_japanese (capText maxChars
      (normalize_text (joinNl (st.buffer.map (·.text))))) = false)
    (herr : tr (capText maxChars
      (normalize_text (joinNl (st.buffer.map (·.text))))) = Except.error e) :
    (flushBody minInterval maxChars tr now sendAt st).sent = none ∧
    (flushBody minInterval maxChars tr now sendAt st).st.lastSentAt =
      st.lastSentAt ∧
    (flushBody minInterval maxChars tr now sendAt st).st.buffer = [] ∧
    (flushBody minInterval maxChars tr now sendAt st).st.pendingWakes =
      st.pendingWakes.tail ∧
    (flushBody minInterval maxChars tr now sendAt st).submitted =
      some (capText maxChars
        (normalize_text (joinNl (st.buffer.map (·.text))))) ∧
    (∀ (w now2 : ℚ) (allow : Option (List ℤ)) (sf : Bool) (me : ℤ)
      (ev : Event) (t2 : Text),
      handlerClassify allow sf me ev = some t2 →
      (handlerStep w allow sf me now2 ev
        (flushBody minInterval maxChars tr now sendAt st).st).buffer =
        [⟨now2, t2, ev.msgId⟩]) := by
  have hemp := isEmpty_false_of_ne st.buffer hb
  have hemp2 := isEmpty_false_of_ne _ hm
  simp only [flushBody, hemp, Bool.false_eq_true, if_false, if_neg hr,
    hemp2, hja, herr]
  refine ⟨by trivial, by trivial, by trivial, by trivial, by trivial, ?_⟩
  intro w now2 allow sf me ev t2 hadm
  simp [handlerStep, hadm]

/-- Witness for C5: a concrete flush whose translation call fails leaves
last_sent_at at its prior value, sends nothing, and a later admitted
event is buffered normally. -/
theorem translation_error_contained_witness :
    (flushBody MIN_INTERVAL_PER_CHAT MAX_CHARS
      (fun _ => Except.error (String.mk ['x'])) 10 10
      ⟨0, [⟨0, ['h', 'i'], 4⟩], [MERGE_WINDOW]⟩).sent = none ∧
    (flushBody MIN_INTERVAL_PER_CHAT MAX_CHARS
      (fun _ => Except.error (String.mk ['x'])) 10 10
      ⟨0, [⟨0, ['h', 'i'], 4⟩], [MERGE_WINDOW]⟩).st.lastSentAt = 0 := by
  have h := translation_error_contained MIN_INTERVAL_PER_CHAT MAX_CHARS
    (fun _ => Except.error (String.mk ['x'])) (String.mk ['x']) 10 10
    ⟨0, [⟨0, ['h', 'i'], 4⟩], [MERGE_WINDOW]⟩
    (by decide) (by norm_num [MIN_INTERVAL_PER_CHAT]) (by decide)
    (by decide) (by rfl)
  exact ⟨h.1, h.2.1⟩

/-- C6: when the merged normalized batch text exceeds the MAX_CHARS
budget of 1500, the text a flush submits for translation is exactly its
first MAX_CHARS characters followed by the truncation marker, so the
submitted text has length MAX_CHARS plus one. -/
theorem oversized_batch_truncated
    (tr : Text → Except TranslationError Text) (now sendAt : ℚ)
    (st : ChatSt)
    (hb : st.buffer ≠ [])
    (hr : ¬(now - st.lastSentAt < MIN_INTERVAL_PER_CHAT))
    (hlen : MAX_CHARS <
      (normalize_text (joinNl (st.buffer.map (·.text)))).length)
    (hja : looks_like_japanese
      ((normalize_text (joinNl (st.buffer.map (·.text)))).take MAX_CHARS
        ++ ['…']) = false) :
    (flushBody MIN_INTERVAL_PER_CHAT MAX_CHARS tr now sendAt st).submitted =
      some ((normalize_text (joinNl (st.buffer.map (·.text)))).take MAX_CHARS
        ++ ['…']) ∧
    ((normalize_text (joinNl (st.buffer.map (·.text)))).take MAX_CHARS
      ++ ['…']).length = MAX_CHARS + 1 := by
  have hemp := isEmpty_false_of_ne st.buffer hb
  have hm : normalize_text (joinNl (st.buffer.map (·.text))) ≠ [] := by
    intro hcon
    rw [hcon] at hlen
    simp [MAX_CHARS] at hlen
  have hemp2 := isEmpty_false_of_ne _ hm
  have hcap : capText MAX_CHARS
      (normalize_text (joinNl (st.buffer.map (·.text)))) =
      (normalize_text (joinNl (st.buffer.map (·.text)))).take MAX_CHARS
        ++ ['…'] := by
    simp only [capText, if_pos hlen]
  constructor
  · simp only [flushBody, hemp, Bool.false_eq_true, if_false, if_neg hr,
      hemp2, hcap, hja]
    cases htr : tr ((normalize_text
        (joinNl (st.buffer.map (·.text)))).take MAX_CHARS ++ ['…']) <;>
      simp [htr]
  · simp only [List.length_append, List.length_take, List.length_cons,
      List.length_nil]
    omega

/-- Witness for C6: an inbound text of 2000 characters is cut to exactly
the first 1500 characters plus the ellipsis marker before being submitted
for translation. -/
theorem oversized_batch_truncated_witness :
    MAX_CHARS <
      (normalize_text (joinNl (([⟨0, List.replicate 2000 'a', 3⟩] :
        List BufferedItem).map (·.text)))).length ∧
    (flushBody MIN_INTERVAL_PER_CHAT MAX_CHARS (fun t => Except.ok t) 10 10
      ⟨0, [⟨0, List.replicate 2000 'a', 3⟩], []⟩).submitted =
      some (List.replicate MAX_CHARS 'a' ++ ['…']) := by
  have hnorm : normalize_text (joinNl (([⟨0, List.replicate 2000 'a', 3⟩] :
      List BufferedItem).map (·.text))) = List.replicate 2000 'a' := by
    have hj : joinNl [List.replicate 2000 'a'] = List.replicate 2000 'a' := by
      rw [joinNl, List.intercalate, List.intersperse_single]
      simp only [List.flatten_cons, List.flatten_nil, List.append_nil]
    simp only [List.map_cons, List.map_nil]
    rw [hj]
    exact normalizeWith_eq_self pyIsWs _ fun c hc => by
      rw [List.eq_of_mem_replicate hc]
      decide
  have hlen : MAX_CHARS < (normalize_text (joinNl
      (([⟨0, List.replicate 2000 'a', 3⟩] :
        List BufferedItem).map (·.text)))).length := by
    rw [hnorm, List.length_replicate]
    norm_num [MAX_CHARS]
  have htake : (normalize_text (joinNl (([⟨0, List.replicate 2000 'a', 3⟩] :
      List BufferedItem).map (·.text)))).take MAX_CHARS =
      List.replicate MAX_CHARS 'a' := by
    rw [hnorm, List.take_replicate]
    have hmin : min MAX_CHARS 2000 = MAX_CHARS := by norm_num [MAX_CHARS]
    rw [hmin]
  have hja : looks_like_japanese ((normalize_text (joinNl
      (([⟨0, List.replicate 2000 'a', 3⟩] :
        List BufferedItem).map (·.text)))).take MAX_CHARS ++ ['…']) =
      false := by
    rw [htake]
    have hcount : (List.replicate MAX_CHARS 'a' ++ ['…']).countP isKana
        = 0 := by
      refine List.countP_eq_zero.mpr ?_
      intro c hc
      rcases List.mem_append.mp hc with h | h
      · rw [List.eq_of_mem_replicate h]; decide
      · rcases List.mem_singleton.mp h with rfl; decide
    have hne : (List.replicate MAX_CHARS 'a' ++ ['…']).isEmpty = false := by
      simp only [List.isEmpty_eq_false, ne_eq]
      intro hcon
      have hl := congrArg List.length hcon
      simp only [List.length_append, List.length_replicate,
        List.length_cons, List.length_nil] at hl
      omega
    simp only [looks_like_japanese, hne, Bool.false_eq_true, if_false,
      hcount]
    decide
  have h := oversized_batch_truncated (fun t => Except.ok t) 10 10
    ⟨0, [⟨0, List.replicate 2000 'a', 3⟩], []⟩
    (List.cons_ne_nil _ _) (by norm_num [MIN_INTERVAL_PER_CHAT]) hlen hja
  refine ⟨hlen, ?_⟩
  rw [h.1, htake]

/-- C4: the rate limiter of flush_chat.  A first successful trigger at
time t1 records last_sent_at = t1; a second trigger at t2 with
t2 - t1 below the minimum interval is denied without sending, without a
translation call, and without touching last_sent_at; a second trigger
spaced at least the minimum interval apart (whose other gates pass)
succeeds and advances last_sent_at monotonically to t2. -/
theorem rate_limit_spacing (minI : ℚ) (hI : 0 < minI) (maxChars : ℕ)
    (tr : Text → Except TranslationError Text)
    (l0 t1 t2 : ℚ) (b1 b2 : List BufferedItem) (w1 w2 : List ℚ)
    (ja1 : Text)
    (hb1 : b1 ≠ [])
    (hr1 : ¬(t1 - l0 < minI))
    (hm1 : normalize_text (joinNl (b1.map (·.text))) ≠ [])
    (hja1 : looks_like_japanese (capText maxChars
      (normalize_text (joinNl (b1.map (·.text))))) = false)
    (htr1 : tr (capText maxChars
      (normalize_text (joinNl (b1.map (·.text))))) = Except.ok ja1)
    (hb2 : b2 ≠ []) :
    (flushBody minI maxChars tr t1 t1 ⟨l0, b1, w1⟩).sent ≠ none ∧
    (flushBody minI maxChars tr t1 t1 ⟨l0, b1, w1⟩).st.lastSentAt = t1 ∧
    (t2 - t1 < minI →
      (flushBody minI maxChars tr t2 t2 ⟨t1, b2, w2⟩).sent = none ∧
      (flushBody minI maxChars tr t2 t2 ⟨t1, b2, w2⟩).submitted = none ∧
      (flushBody minI maxChars tr t2 t2 ⟨t1, b2, w2⟩).st.lastSentAt = t1) ∧
    (minI ≤ t2 - t1 →
      ∀ ja2 : Text,
      normalize_text (joinNl (b2.map (·.text))) ≠ [] →
      looks_like_japanese (capText maxChars
        (normalize_text (joinNl (b2.map (·.text))))) = false →
      tr (capText maxChars
        (normalize_text (joinNl (b2.map (·.text))))) = Except.ok ja2 →
      (flushBody minI maxChars tr t2 t2 ⟨t1, b2, w2⟩).sent ≠ none ∧
      (flushBody minI maxChars tr t2 t2 ⟨t1, b2, w2⟩).st.lastSentAt = t2 ∧
      t1 < t2) := by
  have hemp1 := isEmpty_false_of_ne b1 hb1
  have hemp1n := isEmpty_false_of_ne _ hm1
  have hemp2 := isEmpty_false_of_ne b2 hb2
  refine ⟨?_, ?_, ?_, ?_⟩
  · simp only [flushBody, hemp1, Bool.false_eq_true, if_false,
      if_neg hr1, hemp1n, hja1, htr1]
    simp
  · simp only [flushBody, hemp1, Bool.false_eq_true, if_false,
      if_neg hr1, hemp1n, hja1, htr1]
  · intro hlt
    simp only [flushBody, hemp2, Bool.false_eq_true, if_false,
      if_pos hlt]
    exact ⟨by trivial, by trivial, by trivial⟩
  · intro hge ja2 hm2 hja2 htr2
    have hr2 : ¬(t2 - t1 < minI) := not_lt.mpr hge
    have hemp2n := isEmpty_false_of_ne _ hm2
    refine ⟨?_, ?_, by linarith⟩
    · simp only [flushBody, hemp2, Bool.false_eq_true, if_false,
        if_neg hr2, hemp2n, hja2, htr2]
      simp
    · simp only [flushBody, hemp2, Bool.false_eq_true, if_false,
        if_neg hr2, hemp2n, hja2, htr2]

/-- Witness for C4 at concrete values: interval 5/2, first trigger at
time 0 on a fresh chat (last action at -10), second trigger considered at
time 10. -/
theorem rate_limit_spacing_witness :
    (flushBody MIN_INTERVAL_PER_CHAT MAX_CHARS okTr
      0 0 ⟨-10, [⟨0, ['h', 'i'], 1⟩], []⟩).sent ≠ none ∧
    (flushBody MIN_INTERVAL_PER_CHAT MAX_CHARS okTr
      0 0 ⟨-10, [⟨0, ['h', 'i'], 1⟩], []⟩).st.lastSentAt = 0 ∧
    ((10 : ℚ) - 0 < MIN_INTERVAL_PER_CHAT →
      (flushBody MIN_INTERVAL_PER_CHAT MAX_CHARS okTr
        10 10 ⟨0, [⟨3, ['y', 'o'], 2⟩], []⟩).sent = none ∧
      (flushBody MIN_INTERVAL_PER_CHAT MAX_CHARS okTr
        10 10 ⟨0, [⟨3, ['y', 'o'], 2⟩], []⟩).submitted = none ∧
      (flushBody MIN_INTERVAL_PER_CHAT MAX_CHARS okTr
        10 10 ⟨0, [⟨3, ['y', 'o'], 2⟩], []⟩).st.lastSentAt = 0) ∧
    (MIN_INTERVAL_PER_CHAT ≤ (10 : ℚ) - 0 →
      ∀ ja2 : Text,
      normalize_text (joinNl (([⟨3, ['y', 'o'], 2⟩] :
        List BufferedItem).map (·.text))) ≠ [] →
      looks_like_japanese (capText MAX_CHARS
        (normalize_text (joinNl (([⟨3, ['y', 'o'], 2⟩] :
          List BufferedItem).map (·.text))))) = false →
      okTr (capText MAX_CHARS
        (normalize_text (joinNl (([⟨3, ['y', 'o'], 2⟩] :
          List BufferedItem).map (·.text))))) = Except.ok ja2 →
      (flushBody MIN_INTERVAL_PER_CHAT MAX_CHARS okTr
        10 10 ⟨0, [⟨3, ['y', 'o'], 2⟩], []⟩).sent ≠ none ∧
      (flushBody MIN_INTERVAL_PER_CHAT MAX_CHARS okTr
        10 10 ⟨0, [⟨3, ['y', 'o'], 2⟩], []⟩).st.lastSentAt = 10 ∧
      (0 : ℚ) < 10) :=
  rate_limit_spacing MIN_INTERVAL_PER_CHAT
    (by norm_num [MIN_INTERVAL_PER_CHAT]) MAX_CHARS okTr
    (-10) 0 10 [⟨0, ['h', 'i'], 1⟩] [⟨3, ['y', 'o'], 2⟩] [] []
    ['h', 'i'] (by decide) (by norm_num [MIN_INTERVAL_PER_CHAT])
    (by decide) (by decide) (by rfl) (by decide)

/-- The snapshot behaviour of a flush over a nonempty buffer: whatever
the throttle, heuristic and backend do, the fired batch is the whole
buffer content and the buffer is left empty. -/
theorem flushBody_fired_nonempty (minI : ℚ) (maxChars : ℕ)
    (tr : Text → Except TranslationError Text) (now sendAt : ℚ)
    (st : ChatSt) (hb : st.buffer ≠ []) :
    (flushBody minI maxChars tr now sendAt st).fired = some st.buffer ∧
    (flushBody minI maxChars tr now sendAt st).st.buffer = [] := by
  have hemp := isEmpty_false_of_ne st.buffer hb
  simp only [flushBody, hemp, Bool.false_eq_true, if_false]
  constructor <;>
    · repeat' split
      all_goals rfl

/-- A flush over an empty buffer only consumes its timer. -/
theorem flushBody_empty (minI : ℚ) (maxChars : ℕ)
    (tr : Text → Except TranslationError Text) (now sendAt : ℚ)
    (st : ChatSt) (hb : st.buffer = []) :
    (flushBody minI maxChars tr now sendAt st).fired = none ∧
    (flushBody minI maxChars tr now sendAt st).st.buffer = [] := by
  simp [flushBody, hb]

/-- Executing a concatenated timeline is executing the pieces in turn. -/
theorem execTrace_append (mw minI : ℚ) (maxChars : ℕ)
    (tr : Text → Except TranslationError Text)
    (allow : Option (List ℤ)) (sf : Bool) (me : ℤ)
    (ops1 ops2 : List (ℚ × ChatOp)) (st : ChatSt) :
    execTrace mw minI maxChars tr allow sf me (ops1 ++ ops2) st =
      ((execTrace mw minI maxChars tr allow sf me ops2
        (execTrace mw minI maxChars tr allow sf me ops1 st).1).1,
       (execTrace mw minI maxChars tr allow sf me ops1 st).2 ++
       (execTrace mw minI maxChars tr allow sf me ops2
        (execTrace mw minI maxChars tr allow sf me ops1 st).1).2) := by
  induction ops1 generalizing st with
  | nil => simp [execTrace]
  | cons p rest ih =>
    obtain ⟨t, op⟩ := p
    simp only [List.cons_append, execTrace, List.append_eq, ih,
      List.append_assoc]

/-- Admitted messages only accumulate in the buffer and schedule wakes;
no flush fires during the message phase. -/
theorem execTrace_msgs (mw minI : ℚ) (maxChars : ℕ)
    (tr : Text → Except TranslationError Text)
    (allow : Option (List ℤ)) (sf : Bool) (me : ℤ)
    (admits : List (ℚ × Event)) (st : ChatSt)
    (hadm : ∀ p ∈ admits, handlerClassify allow sf me p.2 =
      some (normalize_text p.2.raw_text)) :
    execTrace mw minI maxChars tr allow sf me
      (admits.map fun p => (p.1, ChatOp.msg p.2)) st =
    ({ st with
        buffer := st.buffer ++ admits.map fun p =>
          ⟨p.1, normalize_text p.2.raw_text, p.2.msgId⟩,
        pendingWakes := st.pendingWakes ++
          admits.map fun p => p.1 + mw },
      []) := by
  induction admits generalizing st with
  | nil => simp [execTrace]
  | cons p rest ih =>
    have hp := hadm p (List.mem_cons_self p rest)
    simp only [List.map_cons, execTrace, stepOp, handlerStep, hp]
    rw [ih _ fun q hq => hadm q (List.mem_cons_of_mem p hq)]
    simp [List.append_assoc]

/-- Wakes over an empty buffer fire nothing and keep the buffer empty. -/
theorem execTrace_wakes_empty (mw minI : ℚ) (maxChars : ℕ)
    (tr : Text → Except TranslationError Text)
    (allow : Option (List ℤ)) (sf : Bool) (me : ℤ)
    (wakes : List ℚ) (st : ChatSt) (hb : st.buffer = []) :
    (execTrace mw minI maxChars tr allow sf me
      (wakes.map fun t => (t, ChatOp.wake)) st).2 = [] := by
  induction wakes generalizing st with
  | nil => simp [execTrace]
  | cons t rest ih =>
    simp only [List.map_cons, execTrace, stepOp]
    have h := flushBody_empty minI maxChars tr t t st hb
    rw [h.1]
    simpa using ih _ h.2

/-- A wake phase over a nonempty buffer fires exactly one batch — the
whole buffer — and every later wake is a no-op. -/
theorem execTrace_wakes_nonempty (mw minI : ℚ) (maxChars : ℕ)
    (tr : Text → Except TranslationError Text)
    (allow : Option (List ℤ)) (sf : Bool) (me : ℤ)
    (wakes : List ℚ) (hne : wakes ≠ []) (st : ChatSt)
    (hb : st.buffer ≠ []) :
    (execTrace mw minI maxChars tr allow sf me
      (wakes.map fun t => (t, ChatOp.wake)) st).2 = [st.buffer] := by
  cases wakes with
  | nil => exact absurd rfl hne
  | cons t rest =>
    simp only [List.map_cons, execTrace, stepOp]
    have h := flushBody_fired_nonempty minI maxChars tr t t st hb
    rw [h.1]
    have hrest := execTrace_wakes_empty mw minI maxChars tr allow sf me
      rest _ h.2
    simp [hrest]

/-- C3 counterexample: src/app.py spawns a flush task on every admitted
message — after a second message arrives at time 1/2, before the
deadline 6/5 of the task spawned by the first at time 0, two flush
timers are in flight for the chat, not at most one. -/
theorem timer_per_message :
    (handlerStep MERGE_WINDOW none false 0 (1/2) ⟨5, 1, ['o', 'k'], 2⟩
      (handlerStep MERGE_WINDOW none false 0 0 ⟨5, 1, ['h', 'i'], 1⟩
        ⟨0, [], []⟩)).pendingWakes.length = 2 ∧
    (1 : ℚ)/2 < 0 + MERGE_WINDOW := by
  constructor
  · simp +decide [handlerStep, handlerClassify]
  · norm_num [MERGE_WINDOW]

/-- C3 amended: every admitted message spawns its own flush task, so a
burst keeps several timers in flight; still, for N messages admitted
within less than the merge window, the combined timeline (messages, then
their wakes) is chronologically sorted, and executing it fires exactly
one nonempty flush, whose batch holds all N items in arrival order. -/
theorem burst_single_flush (mw minI : ℚ) (maxChars : ℕ)
    (tr : Text → Except TranslationError Text)
    (allow : Option (List ℤ)) (sf : Bool) (me : ℤ)
    (admits : List (ℚ × Event)) (l0 : ℚ)
    (hne : admits ≠ [])
    (hsorted : List.Chain' (· ≤ ·) (admits.map (·.1)))
    (hwin : ∀ a b, admits.head? = some a → admits.getLast? = some b →
      b.1 < a.1 + mw)
    (hadm : ∀ p ∈ admits, handlerClassify allow sf me p.2 =
      some (normalize_text p.2.raw_text)) :
    List.Chain' (· ≤ ·)
      (((admits.map fun p => (p.1, ChatOp.msg p.2)) ++
        admits.map fun p => (p.1 + mw, ChatOp.wake)).map (·.1)) ∧
    (execTrace mw minI maxChars tr allow sf me
      ((admits.map fun p => (p.1, ChatOp.msg p.2)) ++
        admits.map fun p => (p.1 + mw, ChatOp.wake))
      ⟨l0, [], []⟩).2 =
      [admits.map fun p => ⟨p.1, normalize_text p.2.raw_text, p.2.msgId⟩] := by
  constructor
  · rw [List.map_append, List.map_map, List.map_map]
    have h1 : ((fun q : ℚ × ChatOp => q.1) ∘ fun p : ℚ × Event =>
        (p.1, ChatOp.msg p.2)) = fun p : ℚ × Event => p.1 := rfl
    have h2 : ((fun q : ℚ × ChatOp => q.1) ∘ fun p : ℚ × Event =>
        (p.1 + mw, ChatOp.wake)) = fun p : ℚ × Event => p.1 + mw := rfl
    rw [h1, h2]
    refine List.chain'_append.mpr ⟨hsorted, ?_, ?_⟩
    · rw [List.chain'_map] at hsorted ⊢
      exact hsorted.imp fun a b hab => by
        simpa using add_le_add_right hab mw
    · intro x hx y hy
      cases hb : admits.getLast? with
      | none => rw [List.getLast?_map, hb] at hx; simp at hx
      | some b =>
        cases ha : admits.head? with
        | none => rw [List.head?_map, ha] at hy; simp at hy
        | some a =>
          rw [List.getLast?_map, hb] at hx
          rw [List.head?_map, ha] at hy
          simp only [Option.map_some', Option.mem_def,
            Option.some.injEq] at hx hy
          have hw := hwin a b ha hb
          rw [← hx, ← hy]
          linarith
  · rw [execTrace_append,
      execTrace_msgs mw minI maxChars tr allow sf me admits _ hadm]
    have hmapw : (admits.map fun p => (p.1 + mw, ChatOp.wake)) =
        (admits.map fun p => p.1 + mw).map fun t => (t, ChatOp.wake) := by
      rw [List.map_map]; rfl
    rw [hmapw]
    have hwne : (admits.map fun p => p.1 + mw) ≠ [] := by
      intro hcon
      exact hne (List.map_eq_nil_iff.mp hcon)
    have hbne : ([] : List BufferedItem) ++
        (admits.map fun p =>
          (⟨p.1, normalize_text p.2.raw_text, p.2.msgId⟩ :
            BufferedItem)) ≠ [] := by
      simp only [List.nil_append]
      intro hcon
      exact hne (List.map_eq_nil_iff.mp hcon)
    rw [execTrace_wakes_nonempty mw minI maxChars tr allow sf me
      _ hwne _ hbne]
    simp

/-- Witness for C3 amended: two messages at times 0 and 1 (within the
merge window 6/5 of each other is not required — within the window of the
first task is: 1 is before 0 + 6/5) produce one fired batch holding both
items in order. -/
theorem burst_single_flush_witness :
    (execTrace MERGE_WINDOW MIN_INTERVAL_PER_CHAT MAX_CHARS okTr
      none false 0
      ((([(0, ⟨5, 1, ['h', 'i'], 1⟩), (1, ⟨5, 1, ['o', 'k'], 2⟩)] :
        List (ℚ × Event)).map fun p => (p.1, ChatOp.msg p.2)) ++
        ([(0, ⟨5, 1, ['h', 'i'], 1⟩), (1, ⟨5, 1, ['o', 'k'], 2⟩)] :
          List (ℚ × Event)).map fun p => (p.1 + MERGE_WINDOW, ChatOp.wake))
      ⟨0, [], []⟩).2 =
      [([(0, ⟨5, 1, ['h', 'i'], 1⟩), (1, ⟨5, 1, ['o', 'k'], 2⟩)] :
        List (ℚ × Event)).map fun p =>
          ⟨p.1, normalize_text p.2.raw_text, p.2.msgId⟩] :=
  (burst_single_flush MERGE_WINDOW MIN_INTERVAL_PER_CHAT MAX_CHARS okTr
    none false 0
    [(0, ⟨5, 1, ['h', 'i'], 1⟩), (1, ⟨5, 1, ['o', 'k'], 2⟩)] 0
    (List.cons_ne_nil _ _)
    (by
      simp only [List.map_cons, List.map_nil, List.chain'_cons,
        List.chain'_singleton, and_true]
      norm_num)
    (by
      intro a b ha hb
      simp only [List.head?_cons, Option.some.injEq] at ha
      simp only [List.getLast?_cons_cons, List.getLast?_singleton,
        Option.some.injEq] at hb
      rw [← ha, ← hb]
      norm_num [MERGE_WINDOW])
    (by decide)).2

/-- Witness for C8 amended: with no allow list and the self filter off, a
one-character message is admitted as its normalized text. -/
theorem admit_iff_normalized_nonempty_witness :
    (handlerClassify none false 0 ⟨5, 1, ['a'], 7⟩ = none ↔
      normalize_text ['a'] = []) ∧
    (∀ t, handlerClassify none false 0 ⟨5, 1, ['a'], 7⟩ = some t →
      t = normalize_text ['a']) :=
  admit_iff_normalized_nonempty none false 0 ⟨5, 1, ['a'], 7⟩
    (by decide) (by decide)

/-- A message identifier already in the processed set is never admitted
anywhere along a delivery stream. -/
theorem dedupAdmits_count_zero (ds : List ℕ) (processed : List ℕ) (m : ℕ)
    (hm : m ∈ processed) : (dedupAdmits processed ds).count m = 0 := by
  induction ds generalizing processed with
  | nil => simp [dedupAdmits]
  | cons d ds ih =>
    simp only [dedupAdmits, classifyDedup]
    by_cases hd : d ∈ processed
    · simp only [hd, if_true]
      exact ih processed hm
    · simp only [hd, if_false]
      have hdm : (d == m) = false := by
        simp only [beq_eq_false_iff_ne, ne_eq]
        intro he
        exact hd (he ▸ hm)
      simp only [if_true, List.count_cons, hdm, Bool.false_eq_true,
        if_false, Nat.add_zero]
      exact ih (processed ++ [d]) (List.mem_append_left _ hm)

/-- C2 (modelled from the spec, see classifyDedup): for every message
identifier m, at most one admit occurs across any stream of deliveries —
the identifier is checked against the processed set before any side
effect (a redelivered identifier leaves the set untouched and causes no
admit), and it is inserted on admit, so later deliveries of m are
denied. -/
theorem dedup_at_most_once (processed : List ℕ) (ds : List ℕ) (m : ℕ) :
    (dedupAdmits processed ds).count m ≤ 1 ∧
    (m ∈ processed → classifyDedup processed m = (false, processed) ∧
      (dedupAdmits processed ds).count m = 0) := by
  constructor
  · induction ds generalizing processed with
    | nil => simp [dedupAdmits]
    | cons d ds ih =>
      simp only [dedupAdmits, classifyDedup]
      by_cases hd : d ∈ processed
      · simp only [hd, if_true]
        exact ih processed
      · simp only [hd, if_false]
        by_cases hdm : d = m
        · subst hdm
          have h0 := dedupAdmits_count_zero ds (processed ++ [d]) d
            (List.mem_append_right _ (List.mem_singleton.mpr rfl))
          simp only [if_true, List.count_cons, h0]
          simp
        · have hbeq : (d == m) = false := by
            simp only [beq_eq_false_iff_ne, ne_eq]
            exact hdm
          simp only [if_true, List.count_cons, hbeq, Bool.false_eq_true,
            if_false, Nat.add_zero]
          exact ih (processed ++ [d])
  · intro hm
    exact ⟨by simp [classifyDedup, hm],
      dedupAdmits_count_zero ds processed m hm⟩

/-- Witness for C2: with identifier 4 already processed, redeliveries of
4 are never admitted and the set is untouched. -/
theorem dedup_at_most_once_witness :
    (dedupAdmits [4] [4, 4]).count 4 ≤ 1 ∧
    classifyDedup [4] 4 = (false, [4]) ∧
    (dedupAdmits [4] [4, 4]).count 4 = 0 :=
  ⟨(dedup_at_most_once [4] [4, 4] 4).1,
   ((dedup_at_most_once [4] [4, 4] 4).2 (by decide)).1,
   ((dedup_at_most_once [4] [4, 4] 4).2 (by decide)).2⟩

/-- C1 (modelled from the spec, see classify): an inbound event whose
normalized text contains the Translation Tag sentinel is always dropped
by the unified classifier, whatever the other configuration; it is never
buffered and no flush task is spawned for it, so no translation call and
no outbound message can arise from it. -/
theorem tag_text_dropped (allow : Option (List ℤ)) (sf : Bool) (me : ℤ)
    (processed : List ℕ) (tag : Text) (minLen threshold : ℕ)
    (ev : Event)
    (ht : hasSub tag (normalize_text ev.raw_text) = true)
    (mw now : ℚ) (st : ChatSt) :
    classify allow sf me processed tag minLen threshold ev = none ∧
    handlerUnified allow sf me processed tag minLen threshold mw now ev st
      = st := by
  have h1 : classify allow sf me processed tag minLen threshold ev
      = none := by
    simp only [classify, ht, if_true, ite_self]
  exact ⟨h1, by simp only [handlerUnified, h1]⟩

/-- Witness for C1: a message holding the sentinel inside its text is
dropped and the chat state is untouched. -/
theorem tag_text_dropped_witness :
    classify none false 0 [] ['※'] 2 3 ⟨5, 1, ['a', '※', 'b'], 9⟩
      = none ∧
    handlerUnified none false 0 [] ['※'] 2 3 MERGE_WINDOW 0
      ⟨5, 1, ['a', '※', 'b'], 9⟩ ⟨0, [], []⟩ = ⟨0, [], []⟩ :=
  tag_text_dropped none false 0 [] ['※'] 2 3 ⟨5, 1, ['a', '※', 'b'], 9⟩
    (by decide) MERGE_WINDOW 0 ⟨0, [], []⟩

end TgJa
